import Mathlib

/-
  Verification of ServerSocket.py against its specification.

  The embedding models the per-connection Reader worker (buffering, newline
  framing, JSON dispatch, logging) and Writer worker (periodic command send)
  as pure step functions, with Python exceptions made explicit.
-/

set_option maxRecDepth 8192

/-- Characters removed by Python str.strip with no arguments: the
characters whose Unicode whitespace property Python recognizes, namely tab,
LF, VT, FF, CR, the file and unit separators 1C-1F, space, NEL 85, NBSP A0,
Ogham space 1680, the 2000-200A spaces, line and paragraph separators
2028-2029, narrow no-break space 202F, medium mathematical space 205F and
ideographic space 3000. -/
def isPySpace (c : Char) : Bool :=
  c = ' ' || c = '\t' || c = '\n' || c = '\r' || c = '\x0b' || c = '\x0c' ||
  c = '\x1c' || c = '\x1d' || c = '\x1e' || c = '\x1f' || c = '\x85' || c = '\xa0' ||
  c.toNat = 0x1680 || decide (0x2000 ≤ c.toNat ∧ c.toNat ≤ 0x200A) ||
  c.toNat = 0x2028 || c.toNat = 0x2029 || c.toNat = 0x202F || c.toNat = 0x205F || c.toNat = 0x3000

/-- Model of Python str.strip with no arguments. -/
def pyStrip (s : String) : String :=
  String.mk (((s.data.dropWhile isPySpace).reverse.dropWhile isPySpace).reverse)

/-- Model of the Python slice s[:n], counted in characters. -/
def pySlice (n : Nat) (s : String) : String := String.mk (s.data.take n)

/-- Model of buffer.split on a single newline with maxsplit 1, from
ServerSocket.read line 40: some (line, rest) when the buffer contains a
newline (split at the first occurrence), none otherwise. -/
def splitOnceNl : List Char → Option (List Char × List Char)
  | [] => none
  | c :: rest =>
    if c = '\n' then some ([], rest)
    else (splitOnceNl rest).map fun p => (c :: p.1, p.2)

/-- Fuel-indexed repeated line extraction: one fuel unit per extracted line.
Fuel at least the buffer length always suffices, because each extraction
consumes at least the newline character. -/
def extractLinesFuel : Nat → List Char → List (List Char) × List Char
  | 0, s => ([], s)
  | n+1, s =>
    match splitOnceNl s with
    | none => ([], s)
    | some (line, rest) =>
      let p := extractLinesFuel n rest
      (line :: p.1, p.2)

/-- The accumulate-then-split loop of ServerSocket.read lines 39-40: extract
every complete newline-terminated line in order, keep the remainder as the
new receive buffer. -/
def extractLines (s : List Char) : List (List Char) × List Char :=
  extractLinesFuel s.length s

/-- Auxiliary for splitAll: prepend a character to the first segment. -/
def consFirst (c : Char) : List (List Char) → List (List Char)
  | [] => [[c]]
  | l :: ls => (c :: l) :: ls

/-- Python s.split on newline with no maxsplit: every segment, including the
trailing segment after the last newline. This is the spec-side description of
framing (splitting B on the newline delimiter directly). -/
def splitAll : List Char → List (List Char)
  | [] => [[]]
  | c :: rest =>
    if c = '\n' then [] :: splitAll rest
    else consFirst c (splitAll rest)

/-- All segments except the last: the complete lines of a buffer. -/
def initSegs : List (List Char) → List (List Char)
  | [] => []
  | [_] => []
  | l :: x :: xs => l :: initSegs (x :: xs)

/-- The last segment (with default d): the pending remainder of a buffer. -/
def lastOr (d : List Char) : List (List Char) → List Char
  | [] => d
  | [l] => l
  | _ :: x :: xs => lastOr d (x :: xs)

/-- One arrival of a chunk: append to the buffer (ServerSocket.read line 36),
then run the extraction loop. -/
def feedStep (st : List (List Char) × List Char) (chunk : List Char) :
    List (List Char) × List Char :=
  let p := extractLines (st.2 ++ chunk)
  (st.1 ++ p.1, p.2)

/-- Feeding decoded chunks one at a time through the Reader loop body from a
given state: a chunk whose decoded text is empty triggers the
if-not-data-break of ServerSocket.read line 32 (orderly shutdown), ending
the loop with the state as it stands; otherwise the chunk is appended and
the extraction loop runs. -/
def feedChunksFrom : (List (List Char) × List Char) → List (List Char) → List (List Char) × List Char
  | st, [] => st
  | st, c :: cs => if c = [] then st else feedChunksFrom (feedStep st c) cs

/-- Feeding received decoded chunks one at a time through the Reader loop,
starting from the empty buffer of ServerSocket.read line 28, stopping at
the first empty decoded chunk as line 32 does. -/
def feedChunks (chunks : List (List Char)) : List (List Char) × List Char :=
  feedChunksFrom ([], []) chunks

theorem splitOnceNl_eq_none : ∀ {s : List Char}, splitOnceNl s = none → '\n' ∉ s := by
  intro s
  induction s with
  | nil => intro _; simp
  | cons c rest ih =>
    intro h
    by_cases hc : c = '\n'
    · subst hc; simp [splitOnceNl] at h
    · simp only [splitOnceNl, if_neg hc, Option.map_eq_none'] at h
      intro hmem
      rcases List.mem_cons.mp hmem with h1 | h2
      · exact hc h1.symm
      · exact ih h h2

theorem splitOnceNl_cons_nl (rest : List Char) :
    splitOnceNl ('\n' :: rest) = some ([], rest) := by
  simp [splitOnceNl]

theorem splitOnceNl_cons {c : Char} (hc : ¬ (c = '\n')) (rest : List Char) :
    splitOnceNl (c :: rest) = (splitOnceNl rest).map fun p => (c :: p.1, p.2) := by
  simp [splitOnceNl, hc]

theorem splitOnceNl_eq_some : ∀ (s l r : List Char), splitOnceNl s = some (l, r) →
    s = l ++ '\n' :: r ∧ '\n' ∉ l := by
  intro s
  induction s with
  | nil => intro l r h; simp [splitOnceNl] at h
  | cons c rest ih =>
    intro l r h
    by_cases hc : c = '\n'
    · subst hc
      rw [splitOnceNl_cons_nl] at h
      have h12 := Option.some.inj h
      have h1 : ([] : List Char) = l := congrArg Prod.fst h12
      have h2 : rest = r := congrArg Prod.snd h12
      subst h1
      subst h2
      simp
    · rw [splitOnceNl_cons hc] at h
      cases hrest : splitOnceNl rest with
      | none => rw [hrest] at h; simp at h
      | some p =>
        rw [hrest] at h
        have h12 := Option.some.inj h
        have h1 : c :: p.1 = l := congrArg Prod.fst h12
        have h2 : p.2 = r := congrArg Prod.snd h12
        obtain ⟨hs, hnl⟩ := ih p.1 p.2 (by rw [hrest])
        subst h1
        subst h2
        constructor
        · rw [hs]
          simp
        · intro hmem
          rcases List.mem_cons.mp hmem with h3 | h4
          · exact hc h3.symm
          · exact hnl h4

theorem splitOnceNl_length : ∀ {s l r : List Char}, splitOnceNl s = some (l, r) →
    r.length < s.length := by
  intro s l r h
  obtain ⟨hs, _⟩ := splitOnceNl_eq_some s l r h
  subst hs
  simp only [List.length_append, List.length_cons]
  omega

theorem splitAll_ne_nil (s : List Char) : splitAll s ≠ [] := by
  induction s with
  | nil => simp [splitAll]
  | cons c rest ih =>
    by_cases hc : c = '\n'
    · simp [splitAll, hc]
    · simp only [splitAll, if_neg hc]
      cases h : splitAll rest with
      | nil => exact absurd h ih
      | cons l ls => simp [consFirst]

theorem splitAll_no_nl : ∀ {s : List Char}, '\n' ∉ s → splitAll s = [s] := by
  intro s
  induction s with
  | nil => intro _; rfl
  | cons c rest ih =>
    intro h
    have hc : ¬ (c = '\n') := fun hh => h (by simp [hh])
    have hr : '\n' ∉ rest := fun hh => h (List.mem_cons_of_mem _ hh)
    simp [splitAll, if_neg hc, ih hr, consFirst]

theorem splitAll_cons_nl (rest : List Char) : splitAll ('\n' :: rest) = [] :: splitAll rest := by
  simp [splitAll]

theorem splitAll_cons {c : Char} (hc : ¬ (c = '\n')) (rest : List Char) :
    splitAll (c :: rest) = consFirst c (splitAll rest) := by
  simp [splitAll, hc]

theorem consFirst_cons (c : Char) (h : List Char) (t : List (List Char)) :
    consFirst c (h :: t) = (c :: h) :: t := rfl

theorem splitAll_append_nl : ∀ (l r : List Char), '\n' ∉ l →
    splitAll (l ++ '\n' :: r) = l :: splitAll r := by
  intro l
  induction l with
  | nil => intro r _; simp [splitAll]
  | cons c l' ih =>
    intro r h
    have hc : ¬ (c = '\n') := fun hh => h (by simp [hh])
    have hl : '\n' ∉ l' := fun hh => h (List.mem_cons_of_mem _ hh)
    rw [List.cons_append, splitAll_cons hc, ih r hl, consFirst_cons]

theorem initSegs_cons {X : List (List Char)} (h : X ≠ []) (a : List Char) :
    initSegs (a :: X) = a :: initSegs X := by
  cases X with
  | nil => exact absurd rfl h
  | cons x xs => rfl

theorem lastOr_cons {X : List (List Char)} (h : X ≠ []) (d a : List Char) :
    lastOr d (a :: X) = lastOr d X := by
  cases X with
  | nil => exact absurd rfl h
  | cons x xs => rfl

theorem initSegs_append : ∀ (X Y : List (List Char)), Y ≠ [] →
    initSegs (X ++ Y) = X ++ initSegs Y := by
  intro X
  induction X with
  | nil => intro Y _; simp
  | cons a X' ih =>
    intro Y h
    have h2 : X' ++ Y ≠ [] := by
      intro hh
      rcases List.append_eq_nil.mp hh with ⟨_, h4⟩
      exact h h4
    rw [List.cons_append, initSegs_cons h2, ih Y h, List.cons_append]

theorem lastOr_append : ∀ (X Y : List (List Char)) (d : List Char), Y ≠ [] →
    lastOr d (X ++ Y) = lastOr d Y := by
  intro X
  induction X with
  | nil => intro Y d _; simp
  | cons a X' ih =>
    intro Y d h
    have h2 : X' ++ Y ≠ [] := by
      intro hh
      rcases List.append_eq_nil.mp hh with ⟨_, h4⟩
      exact h h4
    rw [List.cons_append, lastOr_cons h2, ih Y d h]

theorem extractLinesFuel_eq : ∀ (n : Nat) (s : List Char), s.length ≤ n →
    extractLinesFuel n s = (initSegs (splitAll s), lastOr [] (splitAll s)) := by
  intro n
  induction n with
  | zero =>
    intro s hs
    have hz : s = [] := List.length_eq_zero.mp (Nat.le_zero.mp hs)
    subst hz
    rfl
  | succ n ih =>
    intro s hs
    cases hsp : splitOnceNl s with
    | none =>
      have hnl := splitOnceNl_eq_none hsp
      rw [splitAll_no_nl hnl]
      simp [extractLinesFuel, hsp, initSegs, lastOr]
    | some p =>
      obtain ⟨l, r⟩ := p
      obtain ⟨hseq, hlnl⟩ := splitOnceNl_eq_some s l r hsp
      have hrlen : r.length ≤ n := by
        have := splitOnceNl_length hsp
        omega
      have hfe : extractLinesFuel (n+1) s =
          (l :: (extractLinesFuel n r).1, (extractLinesFuel n r).2) := by
        simp [extractLinesFuel, hsp]
      rw [hfe, ih r hrlen, hseq, splitAll_append_nl l r hlnl,
        initSegs_cons (splitAll_ne_nil r), lastOr_cons (splitAll_ne_nil r)]

theorem extractLines_eq (s : List Char) :
    extractLines s = (initSegs (splitAll s), lastOr [] (splitAll s)) :=
  extractLinesFuel_eq s.length s (Nat.le_refl _)

theorem extractLines_no_nl {s : List Char} (h : '\n' ∉ s) : extractLines s = ([], s) := by
  rw [extractLines_eq, splitAll_no_nl h]
  rfl

theorem no_nl_in_last : ∀ (s : List Char), '\n' ∉ lastOr [] (splitAll s) := by
  intro s
  induction s with
  | nil => simp [splitAll, lastOr]
  | cons c rest ih =>
    by_cases hc : c = '\n'
    · subst hc
      rw [splitAll_cons_nl, lastOr_cons (splitAll_ne_nil rest)]
      exact ih
    · rw [splitAll_cons hc]
      cases hsr : splitAll rest with
      | nil => exact absurd hsr (splitAll_ne_nil rest)
      | cons h t =>
        rw [hsr] at ih
        rw [consFirst_cons]
        cases t with
        | nil =>
          simp only [lastOr] at ih ⊢
          intro hmem
          rcases List.mem_cons.mp hmem with h1 | h2
          · exact hc h1.symm
          · exact ih h2
        | cons t1 t2 =>
          rw [lastOr_cons (by simp : (t1 :: t2 : List (List Char)) ≠ [])]
          rw [lastOr_cons (by simp : (t1 :: t2 : List (List Char)) ≠ [])] at ih
          exact ih

theorem splitAll_append : ∀ (a b : List Char),
    splitAll (a ++ b) = initSegs (splitAll a) ++ splitAll (lastOr [] (splitAll a) ++ b) := by
  intro a
  induction a with
  | nil => intro b; simp [splitAll, initSegs, lastOr]
  | cons c a' ih =>
    intro b
    by_cases hc : c = '\n'
    · subst hc
      rw [List.cons_append, splitAll_cons_nl, splitAll_cons_nl,
        initSegs_cons (splitAll_ne_nil a'), lastOr_cons (splitAll_ne_nil a'),
        List.cons_append, ih b]
    · rw [List.cons_append, splitAll_cons hc, splitAll_cons hc]
      cases hsa : splitAll a' with
      | nil => exact absurd hsa (splitAll_ne_nil a')
      | cons h t =>
        have hib := ih b
        rw [hsa] at hib
        cases t with
        | nil =>
          simp only [initSegs, lastOr, List.nil_append] at hib
          rw [hib, consFirst_cons]
          simp only [initSegs, lastOr, List.nil_append]
          rw [List.cons_append, splitAll_cons hc]
        | cons t1 t2 =>
          have htne : (t1 :: t2 : List (List Char)) ≠ [] := by simp
          rw [initSegs_cons htne, lastOr_cons htne] at hib
          rw [hib, List.cons_append, consFirst_cons, consFirst_cons,
            initSegs_cons htne, lastOr_cons htne, List.cons_append]

theorem extractLines_fst (s : List Char) : (extractLines s).1 = initSegs (splitAll s) := by
  rw [extractLines_eq]

theorem extractLines_snd (s : List Char) : (extractLines s).2 = lastOr [] (splitAll s) := by
  rw [extractLines_eq]

theorem feed_foldl : ∀ (chunks : List (List Char)) (acc : List (List Char)) (buf : List Char),
    '\n' ∉ buf →
    chunks.foldl feedStep (acc, buf) =
      (acc ++ initSegs (splitAll (buf ++ chunks.flatten)),
       lastOr [] (splitAll (buf ++ chunks.flatten))) := by
  intro chunks
  induction chunks with
  | nil =>
    intro acc buf h
    rw [List.flatten_nil, List.append_nil, splitAll_no_nl h]
    simp [initSegs, lastOr]
  | cons c cs ih =>
    intro acc buf h
    rw [List.foldl_cons]
    have hstep : feedStep (acc, buf) c =
        (acc ++ initSegs (splitAll (buf ++ c)), lastOr [] (splitAll (buf ++ c))) := by
      show (acc ++ (extractLines (buf ++ c)).1, (extractLines (buf ++ c)).2) = _
      rw [extractLines_fst, extractLines_snd]
    rw [hstep]
    have hb1 : '\n' ∉ lastOr [] (splitAll (buf ++ c)) := no_nl_in_last (buf ++ c)
    rw [ih _ _ hb1]
    have hj : buf ++ (c :: cs).flatten = (buf ++ c) ++ cs.flatten := by
      rw [List.flatten_cons, List.append_assoc]
    rw [hj, splitAll_append (buf ++ c) cs.flatten,
      initSegs_append _ _ (splitAll_ne_nil _), lastOr_append _ _ _ (splitAll_ne_nil _),
      List.append_assoc]

/-
  JSON model. The json module is standard-library code, not part of this
  repository; it is modelled here closely enough for the dispatch logic:
  numeric literals are carried as their source lexeme (no claim depends on
  numeric semantics), and \u escapes outside the basic plane are not paired
  into surrogates.
-/

/-- Parsed JSON values, as produced by a model of json.loads. -/
inductive JValue where
  | null
  | bool (b : Bool)
  | num (lex : String)
  | str (s : String)
  | arr (elems : List JValue)
  | obj (fields : List (String × JValue))

/-- Python equality between a parsed JSON value and a str literal: true
exactly when the value is that very string (any non-str value compares
unequal to a str in Python). -/
def pyEqStr (v : JValue) (t : String) : Bool :=
  match v with
  | .str s => s = t
  | _ => false

/-- Whitespace accepted between JSON tokens (the json module skips exactly
space, tab, LF, CR). -/
def isJsonWs (c : Char) : Bool :=
  c = ' ' || c = '\t' || c = '\n' || c = '\r'

def skipWs (s : List Char) : List Char := s.dropWhile isJsonWs

def hexDigitVal (c : Char) : Option Nat :=
  if '0' ≤ c ∧ c ≤ '9' then some (c.toNat - 48)
  else if 'a' ≤ c ∧ c ≤ 'f' then some (c.toNat - 87)
  else if 'A' ≤ c ∧ c ≤ 'F' then some (c.toNat - 55)
  else none

def escCharOf (e : Char) : Option Char :=
  if e = '"' then some '"'
  else if e = '\\' then some '\\'
  else if e = '/' then some '/'
  else if e = 'b' then some '\x08'
  else if e = 'f' then some '\x0c'
  else if e = 'n' then some '\n'
  else if e = 'r' then some '\r'
  else if e = 't' then some '\t'
  else none

/-- Body of a JSON string after the opening quote: the decoded characters and
the input following the closing quote. Unescaped control characters are
rejected, as in the json module strict mode. -/
def parseJStringChars : List Char → Option (List Char × List Char)
  | [] => none
  | '"' :: rest => some ([], rest)
  | '\\' :: rest =>
    match rest with
    | [] => none
    | e :: rest2 =>
      if e = 'u' then
        match rest2 with
        | h1 :: h2 :: h3 :: h4 :: rest3 =>
          match hexDigitVal h1, hexDigitVal h2, hexDigitVal h3, hexDigitVal h4 with
          | some v1, some v2, some v3, some v4 =>
            (parseJStringChars rest3).map fun p =>
              (Char.ofNat (4096 * v1 + 256 * v2 + 16 * v3 + v4) :: p.1, p.2)
          | _, _, _, _ => none
        | _ => none
      else
        match escCharOf e with
        | some ec => (parseJStringChars rest2).map fun p => (ec :: p.1, p.2)
        | none => none
  | c :: rest =>
    if c.toNat < 32 then none
    else (parseJStringChars rest).map fun p => (c :: p.1, p.2)

/-- JSON number lexeme: sign, integer part (no leading zeros), optional
fraction, optional exponent. Returns the lexeme and the remaining input. -/
def parseNumber (s : List Char) : Option (List Char × List Char) :=
  let sign : List Char × List Char :=
    match s with
    | '-' :: r => (['-'], r)
    | _ => ([], s)
  match sign.2 with
  | [] => none
  | c :: _ =>
    if c.isDigit then
      let ip : List Char × List Char :=
        if c = '0' then (['0'], sign.2.tail)
        else (sign.2.takeWhile Char.isDigit, sign.2.dropWhile Char.isDigit)
      let fp : List Char × List Char :=
        match ip.2 with
        | '.' :: r =>
          let ds := r.takeWhile Char.isDigit
          if ds.isEmpty then ([], ip.2)
          else ('.' :: ds, r.dropWhile Char.isDigit)
        | _ => ([], ip.2)
      let ep : List Char × List Char :=
        match fp.2 with
        | ec :: r =>
          if ec = 'e' ∨ ec = 'E' then
            let es : List Char × List Char :=
              match r with
              | '+' :: r2 => (['+'], r2)
              | '-' :: r2 => (['-'], r2)
              | _ => ([], r)
            let ds := es.2.takeWhile Char.isDigit
            if ds.isEmpty then ([], fp.2)
            else (ec :: (es.1 ++ ds), es.2.dropWhile Char.isDigit)
          else ([], fp.2)
        | _ => ([], fp.2)
      some (sign.1 ++ ip.1 ++ fp.1 ++ ep.1, ep.2)
    else none

mutual

/-- One JSON value, fuel-indexed (fuel bounds the nesting depth; jsonLoads
supplies more than enough). Mirrors the json module scanner, including the
NaN and Infinity extensions that json.loads accepts by default. -/
def parseValue : Nat → List Char → Option (JValue × List Char)
  | 0, _ => none
  | n+1, s =>
    match s with
    | [] => none
    | c :: rest =>
      if c = '\x7b' then
        match skipWs rest with
        | '\x7d' :: r => some (.obj [], r)
        | s2 => (parseMembers n s2).map fun p => (.obj p.1, p.2)
      else if c = '[' then
        match skipWs rest with
        | ']' :: r => some (.arr [], r)
        | s2 => (parseElems n s2).map fun p => (.arr p.1, p.2)
      else if c = '"' then
        (parseJStringChars rest).map fun p => (.str (String.mk p.1), p.2)
      else if c = 't' then
        match rest with
        | 'r' :: 'u' :: 'e' :: r => some (.bool true, r)
        | _ => none
      else if c = 'f' then
        match rest with
        | 'a' :: 'l' :: 's' :: 'e' :: r => some (.bool false, r)
        | _ => none
      else if c = 'n' then
        match rest with
        | 'u' :: 'l' :: 'l' :: r => some (.null, r)
        | _ => none
      else if c = 'N' then
        match rest with
        | 'a' :: 'N' :: r => some (.num "NaN", r)
        | _ => none
      else if c = 'I' then
        match rest with
        | 'n' :: 'f' :: 'i' :: 'n' :: 'i' :: 't' :: 'y' :: r => some (.num "Infinity", r)
        | _ => none
      else if c = '-' ∨ c.isDigit then
        match parseNumber (c :: rest) with
        | some p => some (.num (String.mk p.1), p.2)
        | none =>
          match c :: rest with
          | '-' :: 'I' :: 'n' :: 'f' :: 'i' :: 'n' :: 'i' :: 't' :: 'y' :: r =>
            some (.num "-Infinity", r)
          | _ => none
      else none

/-- Comma-separated array elements up to the closing bracket. -/
def parseElems : Nat → List Char → Option (List JValue × List Char)
  | 0, _ => none
  | n+1, s =>
    match parseValue n (skipWs s) with
    | none => none
    | some (v, r) =>
      match skipWs r with
      | ',' :: r2 =>
        match parseElems n r2 with
        | none => none
        | some (vs, r3) => some (v :: vs, r3)
      | ']' :: r2 => some ([v], r2)
      | _ => none

/-- Comma-separated object members up to the closing brace; the input starts
at a (whitespace-skipped) key string. -/
def parseMembers : Nat → List Char → Option (List (String × JValue) × List Char)
  | 0, _ => none
  | n+1, s =>
    match s with
    | '"' :: r0 =>
      match parseJStringChars r0 with
      | none => none
      | some (kcs, r1) =>
        match skipWs r1 with
        | ':' :: r2 =>
          match parseValue n (skipWs r2) with
          | none => none
          | some (v, r3) =>
            match skipWs r3 with
            | ',' :: r4 =>
              match parseMembers n (skipWs r4) with
              | none => none
              | some (ms, r5) => some ((String.mk kcs, v) :: ms, r5)
            | '\x7d' :: r4 => some ([(String.mk kcs, v)], r4)
            | _ => none
        | _ => none
    | _ => none

end

/-- Model of json.loads: parse one value with surrounding whitespace allowed
and require the whole input to be consumed. none models a JSONDecodeError. -/
def jsonLoads (s : String) : Option JValue :=
  match parseValue (2 * s.data.length + 2) (skipWs s.data) with
  | some (v, r) => if skipWs r = [] then some v else none
  | none => none

/-- Model of Python dict.get on the parsed member list: with duplicate keys
the json module keeps the last occurrence, as dict construction overwrites. -/
def dictGet (fields : List (String × JValue)) (k : String) : Option JValue :=
  match fields with
  | [] => none
  | (k2, v) :: rest =>
    match dictGet rest k with
    | some v2 => some v2
    | none => if k2 = k then some v else none

/-
  Python exception model: just the exception classes this program can raise
  or catch, with the OSError subclass relation. Since Python 3.3,
  socket.timeout (TimeoutError) and the connection errors are subclasses of
  OSError, which matters for the order of except clauses in write.
-/

/-- Exceptions relevant to ServerSocket.py. -/
inductive PyExc where
  | socketTimeout
  | connectionResetError
  | brokenPipeError
  | osError
  | jsonDecodeError
  | attributeError
deriving DecidableEq

/-- Whether the exception is an instance of OSError: socket.timeout,
ConnectionResetError and BrokenPipeError all are; JSONDecodeError (a
ValueError) and AttributeError are not. -/
def isOSError : PyExc → Bool
  | .socketTimeout => true
  | .connectionResetError => true
  | .brokenPipeError => true
  | .osError => true
  | .jsonDecodeError => false
  | .attributeError => false

/-- Observable log lines, one constructor per print call in ServerSocket.py,
carrying the data interpolated into the f-string. -/
inductive LogEvent where
  | infoHeartbeat (addr : String) (login : JValue)
  | infoMessage (addr : String) (msgType : JValue) (headOfLine : String)
  | warnInvalidJson (addr : String) (headOfLine : String)
  | infoConnReset (addr : String)
  | infoBrokenPipe (addr : String)
  | errorRead (addr : String) (e : PyExc)
  | connClose
  | infoClosed (addr : String)

/-- Dispatch of one extracted line, ServerSocket.read lines 41-52. A
whitespace-only line is skipped by the truthiness test on line.strip().
json.loads failure is caught as JSONDecodeError and logged at WARN. On
success, msg_json.get is a dict method: if the parsed value is not an
object, an AttributeError escapes (it is not a JSONDecodeError), modelled
as the error result. -/
def processLine (addr line : String) : Except PyExc (List LogEvent) :=
  if pyStrip line = "" then .ok []
  else
    match jsonLoads line with
    | none => .ok [.warnInvalidJson addr (pySlice 100 line)]
    | some (.obj fields) =>
      if pyEqStr ((dictGet fields "type").getD (.str "unknown")) "heartbeat" then
        .ok [.infoHeartbeat addr ((dictGet fields "login").getD (.str "unknown"))]
      else
        .ok [.infoMessage addr ((dictGet fields "type").getD (.str "unknown")) (pySlice 200 line)]
    | some _ => .error .attributeError

/-- Processing the extracted lines of one receive batch in order. An escaping
exception stops the batch: lines after it contribute no log events. -/
def processLines (addr : String) : List String → List LogEvent × Option PyExc
  | [] => ([], none)
  | l :: ls =>
    match processLine addr l with
    | .ok evs =>
      let p := processLines addr ls
      (evs ++ p.1, p.2)
    | .error e => ([], some e)

/-- String-level wrapper of the extraction loop. -/
def extractLinesS (s : String) : List String × String :=
  let p := extractLines s.data
  (p.1.map String.mk, String.mk p.2)

/-- Outcome of one conn.recv call as seen by the Reader after decoding:
either a decoded text chunk (empty meaning orderly shutdown) or a raised
exception. -/
inductive RecvOutcome where
  | data (s : String)
  | raises (e : PyExc)

/-- What the Reader does after one loop iteration. -/
inductive ReaderNext where
  | continues (buffer : String)
  | terminates (raised : Option PyExc)
deriving DecidableEq

/-- One iteration of the Reader while-loop, ServerSocket.read lines 29-65:
recv outcome in, log events and next state out. Exception clause order as in
the source: socket.timeout continues, ConnectionResetError and
BrokenPipeError log and break, anything else escapes to the function-level
handler. A processing exception likewise escapes, dropping the rest of the
batch. -/
def readStep (addr buffer : String) (r : RecvOutcome) : List LogEvent × ReaderNext :=
  match r with
  | .raises e =>
    if e = .socketTimeout then ([], .continues buffer)
    else if e = .connectionResetError then ([.infoConnReset addr], .terminates none)
    else if e = .brokenPipeError then ([.infoBrokenPipe addr], .terminates none)
    else ([], .terminates (some e))
  | .data s =>
    if s = "" then ([], .terminates none)
    else
      let ex := extractLinesS (buffer ++ s)
      let pr := processLines addr ex.1
      match pr.2 with
      | none => (pr.1, .continues ex.2)
      | some e => (pr.1, .terminates (some e))

/-- Exit path of the Reader, ServerSocket.read lines 67-74: an escaped
exception is logged at ERROR, then the finally block closes the connection
(idempotently) and logs closure. -/
def readerExit (addr : String) (raised : Option PyExc) : List LogEvent :=
  (match raised with
   | some e => [.errorRead addr e]
   | none => []) ++ [.connClose, .infoClosed addr]

/-
  UTF-8 decoding with errors ignored, as in conn.recv(1024).decode on
  ServerSocket.read line 31. CPython drops the bytes of an ill-formed or
  truncated sequence and continues at the next byte; because each received
  chunk is decoded separately, a multi-byte character split across chunks is
  silently lost.
-/

/-- Valid range of the first continuation byte of a three-byte sequence. -/
def utf8Cont2Ok (b b2 : Nat) : Bool :=
  if b = 0xE0 then decide (0xA0 ≤ b2 ∧ b2 ≤ 0xBF)
  else if b = 0xED then decide (0x80 ≤ b2 ∧ b2 ≤ 0x9F)
  else decide (0x80 ≤ b2 ∧ b2 ≤ 0xBF)

/-- Valid range of the first continuation byte of a four-byte sequence. -/
def utf8Cont3Ok (b b2 : Nat) : Bool :=
  if b = 0xF0 then decide (0x90 ≤ b2 ∧ b2 ≤ 0xBF)
  else if b = 0xF4 then decide (0x80 ≤ b2 ∧ b2 ≤ 0x8F)
  else decide (0x80 ≤ b2 ∧ b2 ≤ 0xBF)

/-- Fuel-indexed body of the decoder; each step consumes at least one byte,
so fuel equal to the input length always suffices. -/
def utf8DecodeIgnoreFuel : Nat → List Nat → List Char
  | 0, _ => []
  | n+1, bs =>
    match bs with
    | [] => []
    | b :: rest =>
      if b < 0x80 then Char.ofNat b :: utf8DecodeIgnoreFuel n rest
      else if 0xC2 ≤ b ∧ b ≤ 0xDF then
        match rest with
        | [] => []
        | b2 :: rest2 =>
          if 0x80 ≤ b2 ∧ b2 ≤ 0xBF then
            Char.ofNat ((b - 0xC0) * 64 + (b2 - 0x80)) :: utf8DecodeIgnoreFuel n rest2
          else utf8DecodeIgnoreFuel n rest
      else if 0xE0 ≤ b ∧ b ≤ 0xEF then
        match rest with
        | [] => []
        | b2 :: rest2 =>
          if utf8Cont2Ok b b2 then
            match rest2 with
            | [] => []
            | b3 :: rest3 =>
              if 0x80 ≤ b3 ∧ b3 ≤ 0xBF then
                Char.ofNat ((b - 0xE0) * 4096 + (b2 - 0x80) * 64 + (b3 - 0x80)) ::
                  utf8DecodeIgnoreFuel n rest3
              else utf8DecodeIgnoreFuel n rest2
          else utf8DecodeIgnoreFuel n rest
      else if 0xF0 ≤ b ∧ b ≤ 0xF4 then
        match rest with
        | [] => []
        | b2 :: rest2 =>
          if utf8Cont3Ok b b2 then
            match rest2 with
            | [] => []
            | b3 :: rest3 =>
              if 0x80 ≤ b3 ∧ b3 ≤ 0xBF then
                match rest3 with
                | [] => []
                | b4 :: rest4 =>
                  if 0x80 ≤ b4 ∧ b4 ≤ 0xBF then
                    Char.ofNat ((b - 0xF0) * 262144 + (b2 - 0x80) * 4096 +
                        (b3 - 0x80) * 64 + (b4 - 0x80)) :: utf8DecodeIgnoreFuel n rest4
                  else utf8DecodeIgnoreFuel n rest3
              else utf8DecodeIgnoreFuel n rest2
          else utf8DecodeIgnoreFuel n rest
      else utf8DecodeIgnoreFuel n rest

/-- Model of bytes.decode with utf-8 codec and errors ignore: ill-formed
sequences are dropped (the offending lead byte, or the whole truncated
sequence at end of input) and decoding continues. -/
def utf8DecodeIgnore (bs : List Nat) : List Char :=
  utf8DecodeIgnoreFuel bs.length bs

/-- Byte-level chunk feeding, as the Reader actually behaves: each received
chunk is decoded on its own (line 31), a chunk decoding to the empty string
ends the loop as orderly shutdown (line 32), and a non-empty decode is
appended to the buffer and split. -/
def feedChunksBytes (chunks : List (List Nat)) : List (List Char) × List Char :=
  feedChunks (chunks.map utf8DecodeIgnore)

/-
  Writer worker model, ServerSocket.write lines 77-100.
-/

def hexDigitChar (n : Nat) : Char :=
  if n < 10 then Char.ofNat (48 + n) else Char.ofNat (87 + n)

def hex4 (n : Nat) : String :=
  String.mk [hexDigitChar (n / 4096 % 16), hexDigitChar (n / 256 % 16),
    hexDigitChar (n / 16 % 16), hexDigitChar (n % 16)]

/-- String escaping of json.dumps with the default ensure ascii: quote,
backslash and the short escapes, a u-escape for other control or non-ASCII
characters (astral characters would need surrogate pairs, which no payload
of this program contains). -/
def escapeJsonChar (c : Char) : String :=
  if c = '"' then "\\\""
  else if c = '\\' then "\\\\"
  else if c = '\n' then "\\n"
  else if c = '\t' then "\\t"
  else if c = '\r' then "\\r"
  else if c = '\x08' then "\\b"
  else if c = '\x0c' then "\\f"
  else if c.toNat < 32 ∨ 126 < c.toNat then "\\u" ++ hex4 c.toNat
  else String.singleton c

def dumpJString (s : String) : String :=
  "\"" ++ String.join (s.data.map escapeJsonChar) ++ "\""

mutual

/-- Model of json.dumps with default arguments: item separator is a comma
and a space, key separator is a colon and a space. -/
def jsonDumps : JValue → String
  | .null => "null"
  | .bool true => "true"
  | .bool false => "false"
  | .num lex => lex
  | .str s => dumpJString s
  | .arr es => "[" ++ jsonDumpsElems es ++ "]"
  | .obj fs => "\x7b" ++ jsonDumpsFields fs ++ "\x7d"

def jsonDumpsElems : List JValue → String
  | [] => ""
  | [v] => jsonDumps v
  | v :: v2 :: vs => jsonDumps v ++ ", " ++ jsonDumpsElems (v2 :: vs)

def jsonDumpsFields : List (String × JValue) → String
  | [] => ""
  | [(k, v)] => dumpJString k ++ ": " ++ jsonDumps v
  | (k, v) :: f2 :: fs => dumpJString k ++ ": " ++ jsonDumps v ++ ", " ++ jsonDumpsFields (f2 :: fs)

end

/-- The fixed payload dict built each iteration, ServerSocket.write line 84. -/
def writePayload : JValue := .obj [("cmd", .str "ACCOUNT")]

/-- The exact text sent each cycle: json.dumps of the payload (its encode to
UTF-8 is byte-for-byte this text, all characters being ASCII). -/
def payloadText : String := jsonDumps writePayload

/-- Observable actions of the Writer worker, in program order. -/
inductive WriteEvent where
  | send (payload : String)
  | sleep (seconds : Nat)
  | logInfoEnding (addr : String) (e : PyExc)
  | logErrorWrite (addr : String) (e : PyExc)
deriving DecidableEq

/-- One iteration of the Writer while-loop, ServerSocket.write lines 82-93:
the payload is serialized and sent, then the thread sleeps 3 seconds. The
input is the exception raised by conn.send, if any. Except clauses are
tried in source order: first the tuple (ConnectionResetError,
BrokenPipeError, OSError) which logs and breaks, then socket.timeout which
continues; an unmatched exception escapes to the function-level handler
which logs at ERROR. Returns the events of the iteration and whether the
loop continues. -/
def writeIter (addr : String) (sendExc : Option PyExc) : List WriteEvent × Bool :=
  match sendExc with
  | none => ([.send payloadText, .sleep 3], true)
  | some e =>
    if e = .connectionResetError ∨ e = .brokenPipeError ∨ isOSError e then
      ([.logInfoEnding addr e], false)
    else if e = .socketTimeout then
      ([], true)
    else
      ([.logErrorWrite addr e], false)

/-- The Writer event trace over a sequence of send outcomes (one entry per
attempted iteration), stopping when an iteration ends the loop. -/
def writeRun (addr : String) : List (Option PyExc) → List WriteEvent
  | [] => []
  | exc :: excs =>
    let p := writeIter addr exc
    p.1 ++ (if p.2 then writeRun addr excs else [])

/-- The payloads actually sent in a Writer event trace. -/
def sentPayloads (evs : List WriteEvent) : List String :=
  evs.filterMap fun ev =>
    match ev with
    | .send p => some p
    | _ => none

/-
  Remaining helper lemmas.
-/

theorem pyEqStr_eq_false {v : JValue} {t : String} (h : ¬ (v = .str t)) :
    pyEqStr v t = false := by
  cases v with
  | str s =>
    show decide (s = t) = false
    exact decide_eq_false fun hh => h (by rw [hh])
  | null => rfl
  | bool b => rfl
  | num l => rfl
  | arr es => rfl
  | obj fs => rfl

theorem splitAll_two_le : ∀ {s : List Char}, '\n' ∈ s → 2 ≤ (splitAll s).length := by
  intro s
  induction s with
  | nil => intro h; simp at h
  | cons c rest ih =>
    intro h
    by_cases hc : c = '\n'
    · subst hc
      rw [splitAll_cons_nl]
      cases hr : splitAll rest with
      | nil => exact absurd hr (splitAll_ne_nil rest)
      | cons a as => simp [List.length_cons]
    · have hmem : '\n' ∈ rest := by
        rcases List.mem_cons.mp h with h1 | h2
        · exact absurd h1.symm hc
        · exact h2
      rw [splitAll_cons hc]
      cases hr : splitAll rest with
      | nil => exact absurd hr (splitAll_ne_nil rest)
      | cons a as =>
        have h2 := ih hmem
        rw [hr] at h2
        rw [consFirst_cons]
        simpa using h2

theorem lastOr_splitAll_nl : ∀ (x y : List Char),
    lastOr [] (splitAll (x ++ '\n' :: y)) = lastOr [] (splitAll y) := by
  intro x
  induction x with
  | nil =>
    intro y
    rw [List.nil_append, splitAll_cons_nl, lastOr_cons (splitAll_ne_nil y)]
  | cons c x' ih =>
    intro y
    by_cases hc : c = '\n'
    · subst hc
      rw [List.cons_append, splitAll_cons_nl, lastOr_cons (splitAll_ne_nil _), ih y]
    · rw [List.cons_append, splitAll_cons hc]
      cases hs : splitAll (x' ++ '\n' :: y) with
      | nil => exact absurd hs (splitAll_ne_nil _)
      | cons h t =>
        cases t with
        | nil =>
          exfalso
          have hm : '\n' ∈ x' ++ '\n' :: y := List.mem_append_right x' (List.mem_cons_self _ _)
          have h2 := splitAll_two_le hm
          rw [hs] at h2
          simp at h2
        | cons t1 t2 =>
          have htne : (t1 :: t2 : List (List Char)) ≠ [] := by simp
          have hi := ih y
          rw [hs, lastOr_cons htne] at hi
          rw [consFirst_cons, lastOr_cons htne]
          exact hi

theorem feedChunksFrom_no_empty : ∀ (chunks : List (List Char))
    (st : List (List Char) × List Char), [] ∉ chunks →
    feedChunksFrom st chunks = chunks.foldl feedStep st := by
  intro chunks
  induction chunks with
  | nil => intro st _; rfl
  | cons c cs ih =>
    intro st h
    have hc : ¬ (c = []) := fun hh => h (by rw [← hh]; exact List.mem_cons_self _ _)
    show (if c = [] then st else feedChunksFrom (feedStep st c) cs) = _
    rw [if_neg hc, List.foldl_cons, ih _ (fun hm => h (List.mem_cons_of_mem _ hm))]

theorem feedChunksFrom_no_nl : ∀ (chunks : List (List Char))
    (st : List (List Char) × List Char), '\n' ∉ st.2 →
    '\n' ∉ (feedChunksFrom st chunks).2 := by
  intro chunks
  induction chunks with
  | nil => intro st h; exact h
  | cons c cs ih =>
    intro st h
    show '\n' ∉ (if c = [] then st else feedChunksFrom (feedStep st c) cs).2
    by_cases hc : c = []
    · rw [if_pos hc]; exact h
    · rw [if_neg hc]
      apply ih
      show '\n' ∉ (extractLines (st.2 ++ c)).2
      rw [extractLines_snd]
      exact no_nl_in_last _

/-
  Claim theorems.
-/

/-- C1, counterexample: at the byte level the chunk-independence claim
fails. The bytes C3 A9 0A (UTF-8 for the accented-e character then a
newline) delivered as the two received chunks C3 and A9 0A are decoded per
chunk with errors ignored (ServerSocket.read line 31): the first chunk
decodes to the empty string, which line 32 treats as orderly shutdown, so
the Reader stops with no line extracted, while the full byte string decodes
to the accented-e character and a newline and splitting it on the newline
directly yields one line. -/
theorem c1_byte_chunking_counterexample :
    (feedChunksBytes [[0xC3], [0xA9, 0x0A]]).1 ≠
      (extractLines (utf8DecodeIgnore ([[0xC3], [0xA9, 0x0A]] : List (List Nat)).flatten)).1 := by
  decide

/-- C1, amended: for chunkings into non-empty decoded texts (equivalently,
byte chunkings in which every received chunk decodes to non-empty text, so
no boundary splits a multi-byte UTF-8 sequence and no chunk decodes to
nothing, since an empty decode ends the Reader as orderly shutdown),
feeding the chunks one at a time through the accumulate-then-split loop
yields exactly the complete lines of splitting the concatenation on the
newline delimiter directly, in the same order, independent of the
chunking; the final pending buffer is likewise chunk-independent. -/
theorem c1_text_chunking_independent (chunks : List (List Char)) (hne : [] ∉ chunks) :
    (feedChunks chunks).1 = (extractLines chunks.flatten).1 ∧
    (feedChunks chunks).1 = initSegs (splitAll chunks.flatten) ∧
    (feedChunks chunks).2 = (extractLines chunks.flatten).2 := by
  have hb : feedChunks chunks = chunks.foldl feedStep ([], []) :=
    feedChunksFrom_no_empty chunks ([], []) hne
  have h := feed_foldl chunks [] [] (by simp)
  simp only [List.nil_append] at h
  have h1 : (feedChunks chunks).1 = initSegs (splitAll chunks.flatten) := by
    rw [hb, h]
  have h2 : (feedChunks chunks).2 = lastOr [] (splitAll chunks.flatten) := by
    rw [hb, h]
  exact ⟨by rw [h1, extractLines_fst], h1, by rw [h2, extractLines_snd]⟩

/-- C1 witness at a concrete two-chunk split of one line and a partial
line. -/
theorem c1_text_chunking_independent_witness :
    (feedChunks [['a'], ['b', '\n', 'c']]).1 =
      (extractLines ([['a'], ['b', '\n', 'c']] : List (List Char)).flatten).1 ∧
    (feedChunks [['a'], ['b', '\n', 'c']]).1 =
      initSegs (splitAll ([['a'], ['b', '\n', 'c']] : List (List Char)).flatten) ∧
    (feedChunks [['a'], ['b', '\n', 'c']]).2 =
      (extractLines ([['a'], ['b', '\n', 'c']] : List (List Char)).flatten).2 :=
  c1_text_chunking_independent [['a'], ['b', '\n', 'c']] (by decide)

/-- C7: after each pass of the line-extraction loop the receive buffer
contains no newline character, so it holds at most one pending partial
line; this invariant also holds after any sequence of chunk arrivals. -/
theorem c7_buffer_no_newline :
    (∀ s : List Char, '\n' ∉ (extractLines s).2) ∧
    (∀ chunks : List (List Char), '\n' ∉ (feedChunks chunks).2) := by
  constructor
  · intro s
    rw [extractLines_snd]
    exact no_nl_in_last s
  · intro chunks
    exact feedChunksFrom_no_nl chunks ([], []) (by simp)

/-- C4: a dispatched line that parses as a JSON object whose type field
equals the string heartbeat produces exactly one INFO heartbeat log with
the peer address and the login value (default unknown when absent), and
never the generic message log. -/
theorem c4_heartbeat_logging (addr line : String) (fields : List (String × JValue))
    (h0 : ¬ (pyStrip line = ""))
    (h1 : jsonLoads line = some (.obj fields))
    (h2 : (dictGet fields "type").getD (.str "unknown") = .str "heartbeat") :
    processLine addr line =
      .ok [.infoHeartbeat addr ((dictGet fields "login").getD (.str "unknown"))] := by
  unfold processLine
  rw [if_neg h0, h1]
  show (if pyEqStr ((dictGet fields "type").getD (.str "unknown")) "heartbeat" = true then
      Except.ok [LogEvent.infoHeartbeat addr ((dictGet fields "login").getD (.str "unknown"))]
    else Except.ok [LogEvent.infoMessage addr ((dictGet fields "type").getD (.str "unknown"))
      (pySlice 200 line)]) = _
  rw [h2]
  simp [pyEqStr]

/-- C4 witness at a concrete heartbeat line. -/
theorem c4_heartbeat_logging_witness :
    processLine "peer" "\x7b\"type\": \"heartbeat\", \"login\": \"alice\"\x7d" =
      .ok [.infoHeartbeat "peer" (.str "alice")] := by
  have h := c4_heartbeat_logging "peer" "\x7b\"type\": \"heartbeat\", \"login\": \"alice\"\x7d"
    [("type", .str "heartbeat"), ("login", .str "alice")] (by decide) (by rfl) (by rfl)
  exact h

/-- C6: a dispatched line that parses as a JSON object whose type field is
absent or not the string heartbeat produces exactly one INFO message log
with the peer address, the type value (default unknown), and the first 200
characters of the raw line. -/
theorem c6_generic_message_logging (addr line : String) (fields : List (String × JValue))
    (h0 : ¬ (pyStrip line = ""))
    (h1 : jsonLoads line = some (.obj fields))
    (h2 : ¬ ((dictGet fields "type").getD (.str "unknown") = .str "heartbeat")) :
    processLine addr line =
      .ok [.infoMessage addr ((dictGet fields "type").getD (.str "unknown"))
        (pySlice 200 line)] := by
  unfold processLine
  rw [if_neg h0, h1]
  show (if pyEqStr ((dictGet fields "type").getD (.str "unknown")) "heartbeat" = true then
      Except.ok [LogEvent.infoHeartbeat addr ((dictGet fields "login").getD (.str "unknown"))]
    else Except.ok [LogEvent.infoMessage addr ((dictGet fields "type").getD (.str "unknown"))
      (pySlice 200 line)]) = _
  rw [pyEqStr_eq_false h2]
  simp

/-- C6 witness at a concrete ping line. -/
theorem c6_generic_message_logging_witness :
    processLine "peer" "\x7b\"type\": \"ping\"\x7d" =
      .ok [.infoMessage "peer" (.str "ping") "\x7b\"type\": \"ping\"\x7d"] := by
  have h := c6_generic_message_logging "peer" "\x7b\"type\": \"ping\"\x7d"
    [("type", .str "ping")] (by decide) (by rfl)
    (by intro hh; injection hh with hh2; exact absurd hh2 (by decide))
  exact h

/-- C5: a dispatched line that is not valid JSON produces exactly one WARN
log with the peer address and the first 100 characters of the raw line; the
line is discarded, the subsequent lines are processed exactly as if the bad
line were absent (in particular no exception arises from it, so the Reader
worker does not terminate because of it), and the receive buffer after the
batch is the same as if the bad line and its newline had not been received. -/
theorem c5_invalid_json_warn (addr line : String) (rest : List String)
    (h0 : ¬ (pyStrip line = ""))
    (h1 : jsonLoads line = none) :
    processLine addr line = .ok [.warnInvalidJson addr (pySlice 100 line)] ∧
    processLines addr (line :: rest) =
      (.warnInvalidJson addr (pySlice 100 line) :: (processLines addr rest).1,
        (processLines addr rest).2) ∧
    ∀ (a b : List Char), (a = [] ∨ ∃ a2, a = a2 ++ ['\n']) →
      (extractLines (a ++ line.data ++ '\n' :: b)).2 = (extractLines (a ++ b)).2 := by
  have hp : processLine addr line = .ok [.warnInvalidJson addr (pySlice 100 line)] := by
    unfold processLine
    rw [if_neg h0, h1]
  refine ⟨hp, ?_, ?_⟩
  · show (match processLine addr line with
      | Except.ok evs => (evs ++ (processLines addr rest).1, (processLines addr rest).2)
      | Except.error e => ([], some e)) =
      (.warnInvalidJson addr (pySlice 100 line) :: (processLines addr rest).1,
        (processLines addr rest).2)
    rw [hp]
    rfl
  · intro a b hshape
    rw [extractLines_snd, extractLines_snd]
    rcases hshape with hnil | ⟨a2, ha2⟩
    · subst hnil
      simp only [List.nil_append]
      exact lastOr_splitAll_nl line.data b
    · subst ha2
      have hform : (a2 ++ ['\n']) ++ line.data ++ '\n' :: b =
          a2 ++ '\n' :: (line.data ++ '\n' :: b) := by
        simp
      have hform2 : (a2 ++ ['\n']) ++ b = a2 ++ '\n' :: b := by
        simp
      rw [hform, hform2, lastOr_splitAll_nl, lastOr_splitAll_nl, lastOr_splitAll_nl]

/-- C5 witness at a concrete invalid line followed by a valid line. -/
theorem c5_invalid_json_warn_witness :
    processLine "peer" "not-json-at-all" = .ok [.warnInvalidJson "peer" "not-json-at-all"] ∧
    processLines "peer" ["not-json-at-all", "\x7b\"type\": \"ping\"\x7d"] =
      ([.warnInvalidJson "peer" "not-json-at-all",
        .infoMessage "peer" (.str "ping") "\x7b\"type\": \"ping\"\x7d"], none) ∧
    (extractLines (['x', '\n'] ++ "not-json-at-all".data ++ '\n' :: ['y'])).2 =
      (extractLines (['x', '\n'] ++ ['y'])).2 := by
  have h := c5_invalid_json_warn "peer" "not-json-at-all" ["\x7b\"type\": \"ping\"\x7d"]
    (by decide) (by rfl)
  refine ⟨h.1, ?_, h.2.2 ['x', '\n'] ['y'] (Or.inr ⟨['x'], rfl⟩)⟩
  rw [h.2.1]
  rfl

/-- C8: an extracted line that is empty or whitespace-only is silently
discarded by the truthiness test on line.strip: it is never dispatched to
JSON parsing, produces no log event, and the processing of the remaining
lines is unchanged. -/
theorem c8_blank_line_discarded (addr line : String) (rest : List String)
    (h : pyStrip line = "") :
    processLine addr line = .ok [] ∧
    processLines addr (line :: rest) = processLines addr rest := by
  have h1 : processLine addr line = .ok [] := by
    unfold processLine
    rw [if_pos h]
  refine ⟨h1, ?_⟩
  show (match processLine addr line with
    | Except.ok evs => (evs ++ (processLines addr rest).1, (processLines addr rest).2)
    | Except.error e => ([], some e)) = processLines addr rest
  rw [h1]
  simp

/-- C8 witness at a whitespace-only line that mixes ASCII whitespace with
NBSP, the file separator and NEL, all stripped by Python str.strip. -/
theorem c8_blank_line_discarded_witness :
    processLine "peer" " \t \x1c\x85 " = .ok [] ∧
    processLines "peer" [" \t \x1c\x85 ", "42"] = processLines "peer" ["42"] := by
  exact c8_blank_line_discarded "peer" " \t \x1c\x85 " ["42"] (by decide)

/-- C9: the line 42 is valid JSON but not an object, so the dict method
call msg_json.get raises an AttributeError, which the JSONDecodeError
handler does not catch: the batch stops (the already-extracted ping line
after it contributes no log, though alone it would), the escaped exception
reaches the function-level handler, which logs at ERROR, closes the
connection and logs closure; the Reader worker terminates. -/
theorem c9_nonobject_json_terminates_reader (addr : String) :
    jsonLoads "42" = some (.num "42") ∧
    processLine addr "42" = .error .attributeError ∧
    processLine addr "\x7b\"type\": \"ping\"\x7d" =
      .ok [.infoMessage addr (.str "ping") "\x7b\"type\": \"ping\"\x7d"] ∧
    readStep addr "" (.data "42\n\x7b\"type\": \"ping\"\x7d\n") =
      ([], .terminates (some .attributeError)) ∧
    readerExit addr (some .attributeError) =
      [.errorRead addr .attributeError, .connClose, .infoClosed addr] := by
  exact ⟨rfl, rfl, rfl, rfl, rfl⟩

/-- C2: when conn.send raises socket.timeout, the Writer worker does not
continue: socket.timeout is a subclass of OSError, so the first except
clause (ConnectionResetError, BrokenPipeError, OSError) matches before the
dedicated socket.timeout clause, logs the thread ending and breaks the
loop. The dedicated timeout clause of ServerSocket.write line 91 is
unreachable. -/
theorem c2_write_timeout_terminates (addr : String) :
    writeIter addr (some .socketTimeout) = ([.logInfoEnding addr .socketTimeout], false) ∧
    isOSError .socketTimeout = true := by
  exact ⟨rfl, rfl⟩

/-- C3, counterexample: the payload sent is the json.dumps serialization
with default separators, which contains a space after the colon, so it is
not the UTF-8 bytes of the spec spelling without the space. -/
theorem c3_payload_counterexample :
    (writeIter "client" none).1 = [.send payloadText, .sleep 3] ∧
    payloadText ≠ "\x7b\"cmd\":\"ACCOUNT\"\x7d" := by
  exact ⟨rfl, by decide⟩

theorem sentPayloads_send (p : String) (evs : List WriteEvent) :
    sentPayloads (.send p :: evs) = p :: sentPayloads evs := rfl

theorem sentPayloads_sleep (k : Nat) (evs : List WriteEvent) :
    sentPayloads (.sleep k :: evs) = sentPayloads evs := rfl

/-- C3, amended: every payload the Writer sends is the json.dumps
serialization of the ACCOUNT command with default formatting (a space
after the colon), ending in the closing brace with no trailing newline or
other delimiter; a run of n normal 3-second cycles sends exactly n such
payloads, one per cycle, with no duplication or omission. -/
theorem c3_payload_amended (addr : String) (n : Nat) :
    payloadText = "\x7b\"cmd\": \"ACCOUNT\"\x7d" ∧
    payloadText.data.getLast? = some '\x7d' ∧
    sentPayloads (writeRun addr (List.replicate n none)) = List.replicate n payloadText := by
  refine ⟨rfl, rfl, ?_⟩
  induction n with
  | zero => rfl
  | succ n ih =>
    rw [List.replicate_succ, List.replicate_succ]
    show sentPayloads (.send payloadText :: .sleep 3 :: writeRun addr (List.replicate n none)) =
      payloadText :: List.replicate n payloadText
    rw [sentPayloads_send, sentPayloads_sleep, ih]

/-- C10: each iteration of the Writer loop performs the send first and
sleeps afterwards, so on every connection the first event of a run whose
first send succeeds is the payload send, before any sleep. -/
theorem c10_send_before_sleep (addr : String) :
    writeIter addr none = ([.send payloadText, .sleep 3], true) ∧
    ∀ excs : List (Option PyExc),
      writeRun addr (none :: excs) = .send payloadText :: .sleep 3 :: writeRun addr excs := by
  exact ⟨rfl, fun excs => rfl⟩
